import Mathlib

/-!
Shallow embedding of the reactor-cpp core (environment, reactions, actions,
timers, dependency-graph construction and topological indexing), translated
from `src/lib/environment.cc`, `src/lib/reaction.cc`, `src/lib/action.cc`,
`src/lib/reactor.cc` and `src/include/reactor-cpp/assert.hh`.

Reactions, actions, ports and reactors are identified by natural numbers.
C++ `unsigned` arithmetic is modelled as natural numbers reduced mod 2^32.
Exceptions (`throw ValidationError`) are modelled with `Except`; operations
that mutate the object graph are explicit state transformers returning both
an `Except` outcome and the state reached when the exception escapes.
-/

namespace ReactorCpp

/-- Modulus of the C++ `unsigned` type (32 bits). -/
def U32 : ℕ := 4294967296

/-- The lifecycle phases of `Environment::Phase`. -/
inductive Phase
  | Construction
  | Assembly
  | Startup
  | Execution
  | Shutdown
  | Deconstruction
deriving DecidableEq

/-- A thrown `reactor::ValidationError`, carrying its message. -/
structure ValidationErr where
  msg : String
deriving DecidableEq

/-- `reactor::validate` from `assert.hh`: throws a `ValidationError` exactly when
runtime validation is compiled in (`kDoRuntimeValidation`) and the condition is
false.  The flag is passed explicitly so that both build configurations can be
reasoned about. -/
def validate (doValidation : Bool) (cond : Bool) (msg : String) :
    Except ValidationErr Unit :=
  if doValidation && !cond then .error ⟨msg⟩ else .ok ()

/-! ### Tags and timers (`action.cc`)

`Tag` itself (tag.hh/tag.cc) is not part of the provided sources; it is
modelled from the spec. -/

/-- Modelled from the spec: a `Tag` is a pair `(time_point, microstep)`;
`tag.hh`/`tag.cc` are not among the provided sources.  Time points are
nanosecond instants (here `ℤ`), microsteps are naturals. -/
structure Tag where
  timePoint : ℤ
  microstep : ℕ
deriving DecidableEq

/-- Modelled from the spec: `delay(d)` yields `(time_point + d, 0)` if `d > 0`
and `(time_point, microstep + 1)` if `d == 0` (durations are non-negative
nanosecond counts). -/
def Tag.delay (t : Tag) (d : ℕ) : Tag :=
  if 0 < d then ⟨t.timePoint + d, 0⟩ else ⟨t.timePoint, t.microstep + 1⟩

/-- Modelled from the spec: `Tag::from_physical_time` turns a physical time
point into the tag `(time_point, 0)` (microstep zero). -/
def Tag.fromPhysicalTime (tp : ℤ) : Tag := ⟨tp, 0⟩

/-- `Timer::startup` from `action.cc`: the tag of the event it enqueues via
`schedule_sync`.  Note the source schedules at `t0` itself (without `delay`)
when the offset is zero. -/
def Timer.startupTag (startTime : ℤ) (offset : ℕ) : Tag :=
  let t0 := Tag.fromPhysicalTime startTime
  if offset ≠ 0 then t0.delay offset else t0

/-- `Timer::cleanup` from `action.cc`: the tag of the re-enqueued event, or
`none` when the period is zero and nothing is scheduled. -/
def Timer.cleanupTag (now : Tag) (period : ℕ) : Option Tag :=
  if period ≠ 0 then some (now.delay period) else none

/-! ### Reaction dispatch (`reaction.cc`) -/

/-- What `Reaction::trigger` executes. -/
inductive RunChoice
  | body
  | deadlineHandler
deriving DecidableEq

/-- `Reaction::trigger` from `reaction.cc`: with a deadline set, computes
`lag = physical_time - logical_time` and runs the deadline handler instead of
the body exactly when `lag > deadline`. -/
def Reaction.triggerRun (deadline : Option ℤ) (physicalTime logicalTime : ℤ) :
    RunChoice :=
  match deadline with
  | some dl =>
    let lag := physicalTime - logicalTime
    if lag > dl then .deadlineHandler else .body
  | none => .body

/-! ### Dependency-graph edge construction (`Environment::build_dependency_graph`) -/

/-- The inward-binding chase of `build_dependency_graph`:
`while (source->has_inward_binding()) source = source->inward_binding();`.
The C++ loop has no bound; here it is run with explicit fuel, and theorems
assume the chain terminates within the given fuel. -/
def sourcePort (inward : ℕ → Option ℕ) : ℕ → ℕ → ℕ
  | 0, p => p
  | fuel + 1, p =>
    match inward p with
    | none => p
    | some q => sourcePort inward fuel q

/-- Port `p`'s inward-binding chain ends at the source port `s`: `s` is
reachable from `p` along inward bindings and has no inward binding itself. -/
def chainReaches (inward : ℕ → Option ℕ) (p s : ℕ) : Prop :=
  Relation.ReflTransGen (fun a b => inward a = some b) p s ∧ inward s = none

/-- The edge-building loop of `Environment::build_dependency_graph`: for each
reaction `r` (in iteration order `rs`), for each dependency port `d` of `r`,
chase `d`'s inward bindings to the source port and append one pair `(r, ad)`
for every reaction `ad` in the source port's antidependency set. -/
def buildDependencyEdges (rs : List ℕ) (depsOf : ℕ → List ℕ)
    (inward : ℕ → Option ℕ) (antideps : ℕ → List ℕ) (fuel : ℕ) :
    List (ℕ × ℕ) :=
  rs.flatMap fun r =>
    (depsOf r).flatMap fun d =>
      (antideps (sourcePort inward fuel d)).map fun ad => (r, ad)

/-- The `std::map<int, Reaction*>` emplace of `build_dependency_graph`:
insert `(priority, reaction)` into the sorted association list, reporting
whether insertion took place (`false` on a duplicate priority, which the
source turns into a `ValidationError`). -/
def emplacePriority (p : ℤ) (r : ℕ) : List (ℤ × ℕ) → List (ℤ × ℕ) × Bool
  | [] => ([(p, r)], true)
  | (q, x) :: rest =>
    if p < q then ((p, r) :: (q, x) :: rest, true)
    else if p = q then ((q, x) :: rest, false)
    else
      let (rest', inserted) := emplacePriority p r rest
      ((q, x) :: rest', inserted)

/-- The priority-map construction of `build_dependency_graph`: fold the
reactions of one reactor, given as `(reaction, priority)` pairs, into the
sorted map, failing with the source's `ValidationError` on a duplicate
priority. -/
def buildPriorityMap (rs : List (ℕ × ℤ)) :
    Except ValidationErr (List (ℤ × ℕ)) :=
  rs.foldlM
    (fun m rp =>
      let (m', inserted) := emplacePriority rp.2 rp.1 m
      match validate true inserted
          "priorities must be unique for all reactions of the same reactor" with
      | .error e => .error e
      | .ok _ => .ok m')
    []

/-- The priority-edge loop of `build_dependency_graph`: for consecutive
entries `it`, `next` of the ascending priority map, append the pair
`(next.second, it.second)` — an edge from the higher-priority-number reaction
to the lower one.  With fewer than two entries no edge is added, as in the
source. -/
def priorityEdges (m : List (ℤ × ℕ)) : List (ℕ × ℕ) :=
  (m.tail.zip m).map fun p => (p.1.2, p.2.2)

/-! ### Topological indexing (`Environment::calculate_indexes`) -/

/-- The error raised by `calculate_indexes` on a cycle.  Before throwing, the
source calls `export_dependency_graph("/tmp/reactor_dependency_graph.dot")`;
the written path and the exported edge list are recorded in the error. -/
structure CalcIndexesError where
  dotPath : String
  dotEdges : List (ℕ × ℕ)
  err : ValidationErr
deriving DecidableEq

/-- Successor sets of the graph built at the top of `calculate_indexes`:
`graph[d.first].insert(d.second)` for every recorded dependency pair. -/
def depSucc (deps : List (ℕ × ℕ)) (r : ℕ) : Finset ℕ :=
  ((deps.filter fun d => d.1 == r).map Prod.snd).toFinset

/-- Key set of the graph built at the top of `calculate_indexes`: every
registered reaction (`graph[r];`) plus every edge source (`graph[d.first]`
default-constructs a missing key). -/
def graphKeys (reactions : Finset ℕ) (deps : List (ℕ × ℕ)) : Finset ℕ :=
  reactions ∪ (deps.map Prod.fst).toFinset

/-- The `while (graph.size() != 0)` loop of `calculate_indexes`.  Each round
collects the keys whose remaining successor set is empty (`degree_zero`),
assigns them the current index, and erases them from the key set and from
every remaining successor set; if no such key exists the source exports the
graph and throws.  `index` is C++ `unsigned`, so `index++` wraps mod `2^32`.
The loop is run on explicit fuel; `calculateIndexes` supplies fuel equal to
the number of keys, which the progress lemmas show is never exhausted (at
fuel `0` the key set is already empty whenever the initial fuel was the
initial key count). -/
def kahnAux (cycErr : CalcIndexesError) :
    ℕ → Finset ℕ → (ℕ → Finset ℕ) → ℕ → (ℕ → Option ℕ) →
    Except CalcIndexesError ((ℕ → Option ℕ) × ℕ)
  | fuel + 1, keys, succ, index, assign =>
    if keys = ∅ then .ok (assign, index)
    else
      let dz := keys.filter fun r => succ r = ∅
      if dz = ∅ then .error cycErr
      else
        kahnAux cycErr fuel (keys \ dz) (fun r => succ r \ dz)
          ((index + 1) % U32)
          (fun r => if r ∈ dz then some index else assign r)
  | 0, keys, _, index, assign =>
    if keys = ∅ then .ok (assign, index) else .error cycErr

/-- The error value `calculate_indexes` produces on a cycle: the DOT export
of the dependency list to `/tmp/reactor_dependency_graph.dot`, followed by
the thrown `ValidationError`. -/
def cycleErrorOf (deps : List (ℕ × ℕ)) : CalcIndexesError :=
  ⟨"/tmp/reactor_dependency_graph.dot", deps,
   ⟨"There is a loop in the dependency graph. Graph was written to /tmp/reactor_dependency_graph.dot"⟩⟩

/-- `Environment::calculate_indexes`: build the graph from the registered
reactions and the recorded dependency pairs, run the indexing loop, and on
success return the per-reaction indexes together with
`_max_reaction_index = index - 1` (unsigned arithmetic, hence the mod). -/
def calculateIndexes (reactions : Finset ℕ) (deps : List (ℕ × ℕ)) :
    Except CalcIndexesError ((ℕ → Option ℕ) × ℕ) :=
  let keys := graphKeys reactions deps
  match kahnAux (cycleErrorOf deps) keys.card keys (depSucc deps) 0
      (fun _ => none) with
  | .error e => .error e
  | .ok (assign, index) => .ok (assign, (index + (U32 - 1)) % U32)

/-- A cycle among the recorded dependency pairs. -/
def hasCycle (deps : List (ℕ × ℕ)) : Prop :=
  ∃ r, Relation.TransGen (fun a b => (a, b) ∈ deps) r r

/-! ### The topology-mutating operations and their phase gating

Elements are identified by naturals (separate id spaces per kind).  The
containment relations and element attributes are fixed at element
construction and read-only during the operations below, so they live in a
separate immutable `Topology` record. -/

/-- Immutable element attributes: containment, port direction, action kind.
Reactions, actions and ports always have a containing reactor; a reactor's
container is absent exactly for top-level reactors (`is_top_level`). -/
structure Topology where
  reactionContainer : ℕ → ℕ
  actionContainer : ℕ → ℕ
  portContainer : ℕ → ℕ
  reactorContainer : ℕ → Option ℕ
  portIsInput : ℕ → Bool
  actionIsLogical : ℕ → Bool

/-- The mutable object-graph state touched by the registration and
declaration operations, plus the environment phase and the scheduler's
queue-lock flag used by `async_shutdown`. -/
structure EnvState where
  phase : Phase
  lockHeld : Bool
  schedulerStopped : Bool
  topLevelReactors : Finset ℕ
  reactorActions : ℕ → Finset ℕ
  reactorInputs : ℕ → Finset ℕ
  reactorOutputs : ℕ → Finset ℕ
  reactorReactions : ℕ → Finset ℕ
  reactorChildren : ℕ → Finset ℕ
  actionTriggersOf : ℕ → Finset ℕ
  portTriggersOf : ℕ → Finset ℕ
  dependenciesOf : ℕ → Finset ℕ
  antidependenciesOf : ℕ → Finset ℕ
  schedulableActionsOf : ℕ → Finset ℕ
  actionTriggerSet : ℕ → Finset ℕ
  actionSchedulerSet : ℕ → Finset ℕ
  portDeps : ℕ → Finset (ℕ × Bool)
  portAntideps : ℕ → Finset ℕ

/-- Outcome of a state-mutating call: the `Except` result together with the
state left behind (unchanged when an exception escaped before any mutation,
partially updated otherwise — mutations performed before the throw persist,
as in C++). -/
abbrev OpResult := Except ValidationErr Unit × EnvState

/-- `BaseAction::register_trigger` from `action.cc`: validate the phase and
the containment, then insert the reaction into the action's trigger set. -/
def baseActionRegisterTrigger (v : Bool) (t : Topology) (ac rc : ℕ)
    (s : EnvState) : OpResult :=
  match validate v (s.phase == Phase.Assembly)
      "Triggers may only be registered during assembly phase!" with
  | .error e => (.error e, s)
  | .ok _ =>
    match validate v (t.actionContainer ac == t.reactionContainer rc)
        "Action triggers must belong to the same reactor as the triggered reaction" with
    | .error e => (.error e, s)
    | .ok _ =>
      (.ok (), { s with
        actionTriggerSet :=
          Function.update s.actionTriggerSet ac (insert rc (s.actionTriggerSet ac)) })

/-- `BaseAction::register_scheduler` from `action.cc`: validate `is_logical`
first (as in the source), then the phase, then the containment, then insert
the reaction into the action's scheduler set. -/
def baseActionRegisterScheduler (v : Bool) (t : Topology) (ac rc : ℕ)
    (s : EnvState) : OpResult :=
  match validate v (t.actionIsLogical ac)
      "only logical action can be scheduled by a reaction!" with
  | .error e => (.error e, s)
  | .ok _ =>
    match validate v (s.phase == Phase.Assembly)
        "Schedulers for actions may only be registered during assembly phase!" with
    | .error e => (.error e, s)
    | .ok _ =>
      match validate v (t.actionContainer ac == t.reactionContainer rc)
          "Scheduable actions must belong to the same reactor as the triggered reaction" with
      | .error e => (.error e, s)
      | .ok _ =>
        (.ok (), { s with
        actionSchedulerSet :=
          Function.update s.actionSchedulerSet ac (insert rc (s.actionSchedulerSet ac)) })

/-- Modelled from the spec: `BasePort::register_dependency(reaction,
is_trigger)` (`port.hh`/`port.cc` are not among the provided sources) records
the reaction, with its trigger flag, in the port's dependency edge set. -/
def portRegisterDependency (p rc : ℕ) (isTrigger : Bool) (s : EnvState) :
    EnvState :=
  { s with portDeps :=
      Function.update s.portDeps p (insert (rc, isTrigger) (s.portDeps p)) }

/-- Modelled from the spec: `BasePort::register_antidependency(reaction)`
(`port.hh`/`port.cc` are not among the provided sources) records the reaction
in the port's antidependency edge set. -/
def portRegisterAntidependency (p rc : ℕ) (s : EnvState) : EnvState :=
  { s with portAntideps :=
      Function.update s.portAntideps p (insert rc (s.portAntideps p)) }

/-- The topology-mutating operations of the claim set, with their element
arguments. -/
inductive TopOp
  | registerReactor (r : ℕ)
  | declareTriggerAction (rc ac : ℕ)
  | declareSchedulableAction (rc ac : ℕ)
  | declareTriggerPort (rc p : ℕ)
  | declareDependency (rc p : ℕ)
  | declareAntidependency (rc p : ℕ)
  | actionRegisterTrigger (ac rc : ℕ)
  | actionRegisterScheduler (ac rc : ℕ)
  | reactorRegisterAction (rr ac : ℕ)
  | reactorRegisterPort (rr p : ℕ)
  | reactorRegisterReaction (rr rc : ℕ)
  | reactorRegisterReactor (rr child : ℕ)

/-- Dispatch of the topology-mutating operations, translated clause by clause
from `environment.cc`, `reaction.cc`, `action.cc` and `reactor.cc`: each
operation validates in source order and then performs its insertions (the
`declare_*` operations end by calling the corresponding `register_*` on the
action or port, as in the source). -/
def applyOp (v : Bool) (t : Topology) (op : TopOp) (s : EnvState) : OpResult :=
  match op with
  | .registerReactor r =>
    match validate v (s.phase == Phase.Construction)
        "Reactors may only be registered during construction phase!" with
    | .error e => (.error e, s)
    | .ok _ =>
      match validate v (t.reactorContainer r == none)
          "The environment may only contain top level reactors!" with
      | .error e => (.error e, s)
      | .ok _ => (.ok (), { s with topLevelReactors := insert r s.topLevelReactors })
  | .declareTriggerAction rc ac =>
    match validate v (s.phase == Phase.Assembly)
        "Triggers may only be declared during assembly phase!" with
    | .error e => (.error e, s)
    | .ok _ =>
      match validate v (t.reactionContainer rc == t.actionContainer ac)
          "Action triggers must belong to the same reactor as the triggered reaction" with
      | .error e => (.error e, s)
      | .ok _ =>
        let s1 := { s with
          actionTriggersOf :=
            Function.update s.actionTriggersOf rc (insert ac (s.actionTriggersOf rc)) }
        baseActionRegisterTrigger v t ac rc s1
  | .declareSchedulableAction rc ac =>
    match validate v (s.phase == Phase.Assembly)
        "Scheduable actions may only be declared during assembly phase!" with
    | .error e => (.error e, s)
    | .ok _ =>
      match validate v (t.reactionContainer rc == t.actionContainer ac)
          "Scheduable actions must belong to the same reactor as the triggered reaction" with
      | .error e => (.error e, s)
      | .ok _ =>
        let s1 := { s with
          schedulableActionsOf :=
            Function.update s.schedulableActionsOf rc (insert ac (s.schedulableActionsOf rc)) }
        baseActionRegisterScheduler v t ac rc s1
  | .declareTriggerPort rc p =>
    match validate v (s.phase == Phase.Assembly)
        "Triggers may only be declared during assembly phase!" with
    | .error e => (.error e, s)
    | .ok _ =>
      match
        (if t.portIsInput p then
          validate v (t.reactionContainer rc == t.portContainer p)
            "Input port triggers must belong to the same reactor as the triggered reaction"
        else
          validate v (some (t.reactionContainer rc) == t.reactorContainer (t.portContainer p))
            "Output port triggers must belong to a contained reactor") with
      | .error e => (.error e, s)
      | .ok _ =>
        let s1 := { s with
          portTriggersOf :=
            Function.update s.portTriggersOf rc (insert p (s.portTriggersOf rc)),
          dependenciesOf :=
            Function.update s.dependenciesOf rc (insert p (s.dependenciesOf rc)) }
        (.ok (), portRegisterDependency p rc true s1)
  | .declareDependency rc p =>
    match validate v (s.phase == Phase.Assembly)
        "Dependencies may only be declared during assembly phase!" with
    | .error e => (.error e, s)
    | .ok _ =>
      match
        (if t.portIsInput p then
          validate v (t.reactionContainer rc == t.portContainer p)
            "Dependent input ports must belong to the same reactor as the reaction"
        else
          validate v (some (t.reactionContainer rc) == t.reactorContainer (t.portContainer p))
            "Dependent output ports must belong to a contained reactor") with
      | .error e => (.error e, s)
      | .ok _ =>
        let s1 := { s with
          dependenciesOf :=
            Function.update s.dependenciesOf rc (insert p (s.dependenciesOf rc)) }
        (.ok (), portRegisterDependency p rc false s1)
  | .declareAntidependency rc p =>
    match validate v (s.phase == Phase.Assembly)
        "Antidependencies may only be declared during assembly phase!" with
    | .error e => (.error e, s)
    | .ok _ =>
      match
        (if !(t.portIsInput p) then
          validate v (t.reactionContainer rc == t.portContainer p)
            "Antidependent output ports must belong to the same reactor as the reaction"
        else
          validate v (some (t.reactionContainer rc) == t.reactorContainer (t.portContainer p))
            "Antidependent input ports must belong to a contained reactor") with
      | .error e => (.error e, s)
      | .ok _ =>
        let s1 := { s with
          antidependenciesOf :=
            Function.update s.antidependenciesOf rc (insert p (s.antidependenciesOf rc)) }
        (.ok (), portRegisterAntidependency p rc s1)
  | .actionRegisterTrigger ac rc => baseActionRegisterTrigger v t ac rc s
  | .actionRegisterScheduler ac rc => baseActionRegisterScheduler v t ac rc s
  | .reactorRegisterAction rr ac =>
    match validate v (s.phase == Phase.Construction)
        "Actions can only be registered during construction phase!" with
    | .error e => (.error e, s)
    | .ok _ =>
      (.ok (), { s with
        reactorActions :=
          Function.update s.reactorActions rr (insert ac (s.reactorActions rr)) })
  | .reactorRegisterPort rr p =>
    match validate v (s.phase == Phase.Construction)
        "Ports can only be registered during construction phase!" with
    | .error e => (.error e, s)
    | .ok _ =>
      if t.portIsInput p then
        (.ok (), { s with
        reactorInputs :=
          Function.update s.reactorInputs rr (insert p (s.reactorInputs rr)) })
      else
        (.ok (), { s with
        reactorOutputs :=
          Function.update s.reactorOutputs rr (insert p (s.reactorOutputs rr)) })
  | .reactorRegisterReaction rr rc =>
    match validate v (s.phase == Phase.Construction)
        "Reactions can only be registered during construction phase!" with
    | .error e => (.error e, s)
    | .ok _ =>
      (.ok (), { s with
        reactorReactions :=
          Function.update s.reactorReactions rr (insert rc (s.reactorReactions rr)) })
  | .reactorRegisterReactor rr child =>
    match validate v (s.phase == Phase.Construction)
        "Reactions can only be registered during construction phase!" with
    | .error e => (.error e, s)
    | .ok _ =>
      (.ok (), { s with
        reactorChildren :=
          Function.update s.reactorChildren rr (insert child (s.reactorChildren rr)) })

/-- The phase each topology-mutating operation requires: `Construction` for
the environment- and reactor-level registrations, `Assembly` for the
declaration and action-registration operations. -/
def allowedPhase : TopOp → Phase
  | .registerReactor _ => .Construction
  | .reactorRegisterAction _ _ => .Construction
  | .reactorRegisterPort _ _ => .Construction
  | .reactorRegisterReaction _ _ => .Construction
  | .reactorRegisterReactor _ _ => .Construction
  | _ => .Assembly

/-! ### Shutdown (`Environment::sync_shutdown` / `async_shutdown`) -/

/-- `Environment::sync_shutdown`: validate that the phase is `Execution`,
then move to `Shutdown`, recursively shut the reactors down, move to
`Deconstruction` and stop the scheduler. -/
def syncShutdown (v : Bool) (s : EnvState) : OpResult :=
  match validate v (s.phase == Phase.Execution)
      "sync_shutdown() may only be called during execution phase!" with
  | .error e => (.error e, s)
  | .ok _ =>
    (.ok (), { s with phase := Phase.Deconstruction, schedulerStopped := true })

/-- `Environment::async_shutdown`: take the scheduler's queue lock, run
`sync_shutdown`, and release the lock.  A C++ exception escaping
`sync_shutdown` propagates out of `async_shutdown` before the `unlock()`
call, so the lock stays held on the error path. -/
def asyncShutdown (v : Bool) (s : EnvState) : OpResult :=
  let s1 := { s with lockHeld := true }
  match syncShutdown v s1 with
  | (.error e, s2) => (.error e, s2)
  | (.ok _, s2) => (.ok (), { s2 with lockHeld := false })

/-! ### Lemmas about the indexing loop -/

/-- Membership in the successor sets built by `calculate_indexes` is exactly
membership of the pair in the recorded dependency list. -/
lemma mem_depSucc {deps : List (ℕ × ℕ)} {a b : ℕ} :
    b ∈ depSucc deps a ↔ (a, b) ∈ deps := by
  simp only [depSucc, List.mem_toFinset, List.mem_map, List.mem_filter,
    beq_iff_eq]
  constructor
  · rintro ⟨⟨x, y⟩, ⟨hmem, hx⟩, hy⟩
    simp only at hx hy
    subst hx; subst hy
    exact hmem
  · intro hmem
    exact ⟨(a, b), ⟨hmem, rfl⟩, rfl⟩

/-- In a finite graph whose successor sets stay inside the key set and whose
edge relation has no cycle, some key has an empty successor set (the node the
`degree_zero` scan of `calculate_indexes` finds). -/
lemma exists_degree_zero (keys : Finset ℕ) (succ : ℕ → Finset ℕ)
    (hs : ∀ r ∈ keys, succ r ⊆ keys)
    (hacyc : ¬ ∃ r, Relation.TransGen (fun a b => b ∈ succ a) r r)
    (hne : keys.Nonempty) :
    ∃ r ∈ keys, succ r = ∅ := by
  classical
  revert hs hne
  induction keys using Finset.strongInduction with
  | _ keys ih =>
    intro hs hne
    obtain ⟨r0, hr0⟩ := hne
    by_cases h0 : succ r0 = ∅
    · exact ⟨r0, hr0, h0⟩
    · set D := keys.filter
        (fun x => Relation.TransGen (fun a b => b ∈ succ a) r0 x) with hD
      have hr0D : r0 ∉ D := by
        intro hmem
        rw [hD, Finset.mem_filter] at hmem
        exact hacyc ⟨r0, hmem.2⟩
      have hDsub : D ⊆ keys := by rw [hD]; exact Finset.filter_subset _ _
      have hDss : D ⊂ keys := ⟨hDsub, fun hsub => hr0D (hsub hr0)⟩
      have hDs : ∀ r ∈ D, succ r ⊆ D := by
        intro r hr y hy
        rw [hD, Finset.mem_filter] at hr ⊢
        exact ⟨hs r hr.1 hy, hr.2.tail hy⟩
      have hDne : D.Nonempty := by
        obtain ⟨y, hy⟩ := Finset.nonempty_iff_ne_empty.mpr h0
        refine ⟨y, ?_⟩
        rw [hD, Finset.mem_filter]
        exact ⟨hs r0 hr0 hy, Relation.TransGen.single hy⟩
      obtain ⟨r, hrD, hre⟩ := ih D hDss hDs hDne
      exact ⟨r, hDsub hrD, hre⟩

/-- Every point on a reflexive-transitive path to `r` lies in a finite set
whose members all either are `r` or step inside the set. -/
lemma reach_set (E : ℕ → ℕ → Prop) (r : ℕ) :
    ∀ y, Relation.ReflTransGen E y r →
      ∃ S : Finset ℕ, y ∈ S ∧ r ∈ S ∧ ∀ x ∈ S, x = r ∨ ∃ z ∈ S, E x z := by
  intro y h
  induction h using Relation.ReflTransGen.head_induction_on with
  | refl => exact ⟨{r}, by simp, by simp, by simp⟩
  | head hac hcb ih =>
    obtain ⟨S, hcS, hrS, hprop⟩ := ih
    rename_i a c
    refine ⟨insert a S, Finset.mem_insert_self _ _, Finset.mem_insert_of_mem hrS, ?_⟩
    intro x hx
    rcases Finset.mem_insert.mp hx with rfl | hxS
    · exact Or.inr ⟨c, Finset.mem_insert_of_mem hcS, hac⟩
    · rcases hprop x hxS with hxr | ⟨z, hzS, hxz⟩
      · exact Or.inl hxr
      · exact Or.inr ⟨z, Finset.mem_insert_of_mem hzS, hxz⟩

/-- A transitive-closure cycle yields a finite nonempty set every member of
which has a successor inside the set. -/
lemma cycle_set (E : ℕ → ℕ → Prop) {r : ℕ} (h : Relation.TransGen E r r) :
    ∃ S : Finset ℕ, S.Nonempty ∧ ∀ x ∈ S, ∃ z ∈ S, E x z := by
  obtain ⟨y, hry, hyr⟩ := Relation.TransGen.head'_iff.mp h
  obtain ⟨S, hyS, hrS, hprop⟩ := reach_set E r y hyr
  refine ⟨S, ⟨r, hrS⟩, ?_⟩
  intro x hx
  rcases hprop x hx with rfl | ⟨z, hzS, hxz⟩
  · exact ⟨y, hyS, hry⟩
  · exact ⟨z, hzS, hxz⟩

/-- With fuel at least the key count, the indexing loop of an acyclic graph
whose successor sets stay inside the key set finishes without error. -/
lemma kahnAux_acyclic_ok (e : CalcIndexesError) :
    ∀ (fuel : ℕ) (keys : Finset ℕ) (succ : ℕ → Finset ℕ) (idx : ℕ)
      (a : ℕ → Option ℕ),
      keys.card ≤ fuel →
      (∀ r ∈ keys, succ r ⊆ keys) →
      (¬ ∃ r, Relation.TransGen (fun x y => y ∈ succ x) r r) →
      ∃ res, kahnAux e fuel keys succ idx a = .ok res := by
  intro fuel
  induction fuel with
  | zero =>
    intro keys succ idx a hcard hs hacyc
    have hk : keys = ∅ := Finset.card_eq_zero.mp (Nat.le_zero.mp hcard)
    exact ⟨(a, idx), by simp [kahnAux, hk]⟩
  | succ fuel ih =>
    intro keys succ idx a hcard hs hacyc
    by_cases hk : keys = ∅
    · exact ⟨(a, idx), by simp [kahnAux, hk]⟩
    · have hne : keys.Nonempty := Finset.nonempty_iff_ne_empty.mpr hk
      obtain ⟨r0, hr0k, hr0e⟩ := exists_degree_zero keys succ hs hacyc hne
      have hdzne : keys.filter (fun r => succ r = ∅) ≠ ∅ :=
        Finset.nonempty_iff_ne_empty.mp
          ⟨r0, Finset.mem_filter.mpr ⟨hr0k, hr0e⟩⟩
      set dz := keys.filter (fun r => succ r = ∅) with hdzdef
      have hdzsub : dz ⊆ keys := Finset.filter_subset _ _
      have hdznon : dz.Nonempty := Finset.nonempty_iff_ne_empty.mpr hdzne
      have hcard' : (keys \ dz).card ≤ fuel := by
        have h1 : (keys \ dz).card < keys.card :=
          Finset.card_lt_card (Finset.sdiff_ssubset hdzsub hdznon)
        omega
      have hs' : ∀ r ∈ keys \ dz, succ r \ dz ⊆ keys \ dz := by
        intro r hr y hy
        rw [Finset.mem_sdiff] at hr hy ⊢
        exact ⟨hs r hr.1 hy.1, hy.2⟩
      have hacyc' : ¬ ∃ r, Relation.TransGen (fun x y => y ∈ succ x \ dz) r r := by
        rintro ⟨r, hr⟩
        exact hacyc ⟨r, Relation.TransGen.mono
          (fun x y hxy => (Finset.mem_sdiff.mp hxy).1) hr⟩
      obtain ⟨res, hres⟩ := ih (keys \ dz) (fun r => succ r \ dz)
        ((idx + 1) % U32) (fun r => if r ∈ dz then some idx else a r)
        hcard' hs' hacyc'
      refine ⟨res, ?_⟩
      rw [kahnAux, if_neg hk]
      simp only [← hdzdef, if_neg hdzne]
      exact hres

/-- If some nonempty set of keys is closed under "has a successor inside the
set", the indexing loop can never empty the graph and reports the cycle. -/
lemma kahnAux_cycle_error (e : CalcIndexesError) :
    ∀ (fuel : ℕ) (keys : Finset ℕ) (succ : ℕ → Finset ℕ) (idx : ℕ)
      (a : ℕ → Option ℕ) (S : Finset ℕ),
      S.Nonempty → S ⊆ keys → (∀ x ∈ S, ∃ y ∈ S, y ∈ succ x) →
      kahnAux e fuel keys succ idx a = .error e := by
  intro fuel
  induction fuel with
  | zero =>
    intro keys succ idx a S hSne hSsub hSstep
    have hk : keys ≠ ∅ := by
      obtain ⟨x, hx⟩ := hSne
      exact Finset.nonempty_iff_ne_empty.mp ⟨x, hSsub hx⟩
    simp [kahnAux, hk]
  | succ fuel ih =>
    intro keys succ idx a S hSne hSsub hSstep
    have hk : keys ≠ ∅ := by
      obtain ⟨x, hx⟩ := hSne
      exact Finset.nonempty_iff_ne_empty.mp ⟨x, hSsub hx⟩
    have hSdz : ∀ x ∈ S, x ∉ keys.filter (fun r => succ r = ∅) := by
      intro x hx hmem
      obtain ⟨y, _, hyx⟩ := hSstep x hx
      have hemp : succ x = ∅ := (Finset.mem_filter.mp hmem).2
      rw [hemp] at hyx
      exact absurd hyx (Finset.not_mem_empty y)
    set dz := keys.filter (fun r => succ r = ∅) with hdzdef
    by_cases hdz : dz = ∅
    · rw [kahnAux, if_neg hk]
      simp only [← hdzdef, if_pos hdz]
    · have hstep := ih (keys \ dz) (fun r => succ r \ dz)
        ((idx + 1) % U32) (fun r => if r ∈ dz then some idx else a r) S hSne
        (fun x hx => Finset.mem_sdiff.mpr ⟨hSsub hx, hSdz x hx⟩)
        (fun x hx => by
          obtain ⟨y, hyS, hyx⟩ := hSstep x hx
          exact ⟨y, hyS, Finset.mem_sdiff.mpr ⟨hyx, hSdz y hyS⟩⟩)
      rw [kahnAux, if_neg hk]
      simp only [← hdzdef, if_neg hdz]
      exact hstep

/-- Invariants of a successful run of the indexing loop: earlier assignments
outside the key set persist, the final index exceeds the initial one by the
number of rounds (at most the key count, no `unsigned` wrap below `2^32`),
every key ends up assigned a level in `[idx, m)`, and when there was any key
at all some key carries the last level `m - 1`. -/
lemma kahnAux_ok_spec (e : CalcIndexesError) :
    ∀ (fuel : ℕ) (keys : Finset ℕ) (succ : ℕ → Finset ℕ) (idx : ℕ)
      (a : ℕ → Option ℕ) (assign : ℕ → Option ℕ) (m : ℕ),
      kahnAux e fuel keys succ idx a = .ok (assign, m) →
      idx + keys.card < U32 →
      ((∀ r, r ∉ keys → assign r = a r) ∧
       idx ≤ m ∧ m ≤ idx + keys.card ∧
       (∀ r ∈ keys, ∃ i, idx ≤ i ∧ i < m ∧ assign r = some i) ∧
       (keys.Nonempty → ∃ r ∈ keys, assign r = some (m - 1))) := by
  intro fuel
  induction fuel with
  | zero =>
    intro keys succ idx a assign m h hlt
    rw [kahnAux] at h
    by_cases hk : keys = ∅
    · rw [if_pos hk] at h
      obtain ⟨ha, hm⟩ : a = assign ∧ idx = m := by
        have := congrArg (fun x => Except.toOption x) h
        simp only [Except.toOption] at this
        exact ⟨congrArg Prod.fst (Option.some.inj this),
               congrArg Prod.snd (Option.some.inj this)⟩
      subst ha; subst hm
      refine ⟨fun r _ => rfl, le_refl _, by simp [hk], ?_, ?_⟩
      · intro r hr; rw [hk] at hr; exact absurd hr (Finset.not_mem_empty r)
      · intro hne; rw [hk] at hne; exact absurd hne (by simp)
    · rw [if_neg hk] at h
      exact absurd h (by simp)
  | succ fuel ih =>
    intro keys succ idx a assign m h hlt
    rw [kahnAux] at h
    by_cases hk : keys = ∅
    · rw [if_pos hk] at h
      obtain ⟨ha, hm⟩ : a = assign ∧ idx = m := by
        have := congrArg (fun x => Except.toOption x) h
        simp only [Except.toOption] at this
        exact ⟨congrArg Prod.fst (Option.some.inj this),
               congrArg Prod.snd (Option.some.inj this)⟩
      subst ha; subst hm
      refine ⟨fun r _ => rfl, le_refl _, by simp [hk], ?_, ?_⟩
      · intro r hr; rw [hk] at hr; exact absurd hr (Finset.not_mem_empty r)
      · intro hne; rw [hk] at hne; exact absurd hne (by simp)
    · rw [if_neg hk] at h
      set dz := keys.filter (fun r => succ r = ∅) with hdzdef
      simp only [← hdzdef] at h
      by_cases hdz : dz = ∅
      · rw [if_pos hdz] at h
        exact absurd h (by simp)
      · rw [if_neg hdz] at h
        have hdznon : dz.Nonempty := Finset.nonempty_iff_ne_empty.mpr hdz
        have hdzsub : dz ⊆ keys := Finset.filter_subset _ _
        have hdzcard : 1 ≤ dz.card := Finset.card_pos.mpr hdznon
        have hkcard : 1 ≤ keys.card :=
          Finset.card_pos.mpr (Finset.nonempty_iff_ne_empty.mpr hk)
        have hcards : (keys \ dz).card = keys.card - dz.card :=
          Finset.card_sdiff hdzsub
        have hdzle : dz.card ≤ keys.card := Finset.card_le_card hdzsub
        have hmod : (idx + 1) % U32 = idx + 1 := by
          apply Nat.mod_eq_of_lt
          omega
        rw [hmod] at h
        have hlt' : (idx + 1) + (keys \ dz).card < U32 := by
          rw [hcards]; omega
        obtain ⟨inv1, inv2, inv3, inv4, inv5⟩ :=
          ih (keys \ dz) (fun r => succ r \ dz) (idx + 1)
            (fun r => if r ∈ dz then some idx else a r) assign m h hlt'
        have hnotin : ∀ r ∈ dz, r ∉ keys \ dz := by
          intro r hr hmem
          exact (Finset.mem_sdiff.mp hmem).2 hr
        refine ⟨?_, by omega, by rw [hcards] at inv3; omega, ?_, ?_⟩
        · intro r hr
          have hr' : r ∉ keys \ dz := fun hmem =>
            hr (Finset.sdiff_subset hmem)
          have hrdz : r ∉ dz := fun hmem => hr (hdzsub hmem)
          rw [inv1 r hr']
          simp [hrdz]
        · intro r hr
          by_cases hrdz : r ∈ dz
          · refine ⟨idx, le_refl _, by omega, ?_⟩
            rw [inv1 r (hnotin r hrdz)]
            simp [hrdz]
          · obtain ⟨i, hi1, hi2, hi3⟩ :=
              inv4 r (Finset.mem_sdiff.mpr ⟨hr, hrdz⟩)
            exact ⟨i, by omega, hi2, hi3⟩
        · intro _
          by_cases hk' : (keys \ dz).Nonempty
          · obtain ⟨r, hr, hra⟩ := inv5 hk'
            exact ⟨r, Finset.sdiff_subset hr, hra⟩
          · have hk'' : keys \ dz = ∅ := Finset.not_nonempty_iff_eq_empty.mp hk'
            have hm : m = idx + 1 := by
              rw [hk'', Finset.card_empty] at inv3
              omega
            obtain ⟨r, hr⟩ := hdznon
            refine ⟨r, hdzsub hr, ?_⟩
            rw [inv1 r (hnotin r hr)]
            simp [hr, hm]

/-- When every dependency endpoint is a registered reaction (which
`Environment::startup` guarantees by building the graph over all reactors
before indexing), the key set is exactly the reaction set. -/
lemma graphKeys_eq (reactions : Finset ℕ) (deps : List (ℕ × ℕ))
    (hend : ∀ d ∈ deps, d.1 ∈ reactions ∧ d.2 ∈ reactions) :
    graphKeys reactions deps = reactions := by
  rw [graphKeys, Finset.union_eq_left]
  intro x hx
  simp only [List.mem_toFinset, List.mem_map] at hx
  obtain ⟨d, hd, rfl⟩ := hx
  exact (hend d hd).1

/-- Successor sets stay inside the reaction set when every dependency
endpoint is a registered reaction. -/
lemma depSucc_subset (reactions : Finset ℕ) (deps : List (ℕ × ℕ))
    (hend : ∀ d ∈ deps, d.1 ∈ reactions ∧ d.2 ∈ reactions) (r : ℕ) :
    depSucc deps r ⊆ reactions :=
  fun _ hy => (hend _ (mem_depSucc.mp hy)).2

/-- A cycle among the dependency pairs is the same thing as a cycle of the
successor-set relation the loop works with. -/
lemma hasCycle_iff_succ (deps : List (ℕ × ℕ)) :
    hasCycle deps ↔
      ∃ r, Relation.TransGen (fun x y => y ∈ depSucc deps x) r r := by
  constructor <;> rintro ⟨r, h⟩ <;> refine ⟨r, ?_⟩
  · exact Relation.TransGen.mono (fun a b hab => mem_depSucc.mpr hab) h
  · exact Relation.TransGen.mono (fun a b hab => mem_depSucc.mp hab) h

/-- Unfolding of `calculateIndexes` on the result of the loop. -/
lemma calculateIndexes_eq (reactions : Finset ℕ) (deps : List (ℕ × ℕ)) :
    calculateIndexes reactions deps =
      match kahnAux (cycleErrorOf deps) (graphKeys reactions deps).card
          (graphKeys reactions deps) (depSucc deps) 0 (fun _ => none) with
      | .error e => .error e
      | .ok (assign, index) => .ok (assign, (index + (U32 - 1)) % U32) := rfl

/-- One unfolding step of the indexing loop with fuel left. -/
lemma kahnAux_step (e : CalcIndexesError) (fuel : ℕ) (keys : Finset ℕ)
    (succ : ℕ → Finset ℕ) (idx : ℕ) (a : ℕ → Option ℕ) :
    kahnAux e (fuel + 1) keys succ idx a =
      if keys = ∅ then .ok (a, idx)
      else if keys.filter (fun r => succ r = ∅) = ∅ then .error e
      else kahnAux e fuel (keys \ keys.filter (fun r => succ r = ∅))
        (fun r => succ r \ keys.filter (fun r => succ r = ∅))
        ((idx + 1) % U32)
        (fun r => if r ∈ keys.filter (fun r => succ r = ∅) then some idx
          else a r) := by
  rw [kahnAux]

/-- The indexing loop at fuel `0`. -/
lemma kahnAux_zero (e : CalcIndexesError) (keys : Finset ℕ)
    (succ : ℕ → Finset ℕ) (idx : ℕ) (a : ℕ → Option ℕ) :
    kahnAux e 0 keys succ idx a =
      if keys = ∅ then .ok (a, idx) else .error e := by
  rw [kahnAux]

/-! ### Lemmas about the inward-binding chase -/

/-- When the fuel suffices (the chase has stopped at a port with no inward
binding), `sourcePort` computes exactly the source port of the chain. -/
lemma sourcePort_chainReaches (inward : ℕ → Option ℕ) :
    ∀ (fuel p : ℕ), inward (sourcePort inward fuel p) = none →
      chainReaches inward p (sourcePort inward fuel p) := by
  intro fuel
  induction fuel with
  | zero =>
    intro p h
    exact ⟨Relation.ReflTransGen.refl, h⟩
  | succ fuel ih =>
    intro p h
    cases hp : inward p with
    | none =>
      have hsp : sourcePort inward (fuel + 1) p = p := by
        rw [sourcePort, hp]
      rw [hsp]
      exact ⟨Relation.ReflTransGen.refl, hp⟩
    | some q =>
      have hsp : sourcePort inward (fuel + 1) p = sourcePort inward fuel q := by
        rw [sourcePort, hp]
      rw [hsp] at h ⊢
      obtain ⟨hchain, hend⟩ := ih q h
      exact ⟨Relation.ReflTransGen.head hp hchain, hend⟩

/-- The source port of an inward-binding chain is unique: the step relation
is deterministic (`inward` is a function) and the endpoint has no binding. -/
lemma chainReaches_unique (inward : ℕ → Option ℕ) :
    ∀ {p s s'}, chainReaches inward p s → chainReaches inward p s' →
      s = s' := by
  rintro p s s' ⟨h1, e1⟩ ⟨h2, e2⟩
  revert h2
  induction h1 using Relation.ReflTransGen.head_induction_on with
  | refl =>
    intro h2
    rcases Relation.ReflTransGen.cases_head h2 with rfl | ⟨x, hx, -⟩
    · rfl
    · rw [e1] at hx
      exact absurd hx (by simp)
  | head hab hbc ih =>
    intro h2
    rcases Relation.ReflTransGen.cases_head h2 with rfl | ⟨x, hx, hxs'⟩
    · rw [e2] at hab
      exact absurd hab (by simp)
    · rw [hab] at hx
      have hx' := Option.some_inj.mp hx
      subst hx'
      exact ih hxs'

/-! ### Concrete fixtures used by witness theorems -/

/-- A concrete topology: every element sits in reactor `0`, reactors are
top-level, ports are inputs, actions are logical. -/
def fixTopology : Topology :=
  ⟨fun _ => 0, fun _ => 0, fun _ => 0, fun _ => none, fun _ => true, fun _ => true⟩

/-- Concrete dependency ports: reaction `1` reads port `10`. -/
def fixDepsOf : ℕ → List ℕ := fun r => if r = 1 then [10] else []

/-- Concrete inward bindings: port `10` binds inward to port `11`, which is a
source port. -/
def fixInward : ℕ → Option ℕ := fun p => if p = 10 then some 11 else none

/-- Concrete antidependencies: the source port `11` is written by reaction
`2`. -/
def fixAntideps : ℕ → List ℕ := fun s => if s = 11 then [2] else []

/-- A concrete environment state in the given phase, with every set empty. -/
def fixState (ph : Phase) : EnvState where
  phase := ph
  lockHeld := false
  schedulerStopped := false
  topLevelReactors := ∅
  reactorActions := fun _ => ∅
  reactorInputs := fun _ => ∅
  reactorOutputs := fun _ => ∅
  reactorReactions := fun _ => ∅
  reactorChildren := fun _ => ∅
  actionTriggersOf := fun _ => ∅
  portTriggersOf := fun _ => ∅
  dependenciesOf := fun _ => ∅
  antidependenciesOf := fun _ => ∅
  schedulableActionsOf := fun _ => ∅
  actionTriggerSet := fun _ => ∅
  actionSchedulerSet := fun _ => ∅
  portDeps := fun _ => ∅
  portAntideps := fun _ => ∅

/-! ## Claims -/

/-- C5: `Reaction::trigger` runs the deadline handler in place of the body
exactly when a deadline is set and `lag = physical_time - logical_time`
exceeds it; in every other case (no deadline, or `lag ≤ deadline`) the body
runs. -/
theorem trigger_runs_handler_iff_deadline_missed
    (deadline : Option ℤ) (physicalTime logicalTime : ℤ) :
    (Reaction.triggerRun deadline physicalTime logicalTime = .deadlineHandler ↔
      ∃ dl, deadline = some dl ∧ physicalTime - logicalTime > dl) ∧
    (Reaction.triggerRun deadline physicalTime logicalTime = .body ↔
      ¬ ∃ dl, deadline = some dl ∧ physicalTime - logicalTime > dl) := by
  cases deadline with
  | none => simp [Reaction.triggerRun]
  | some dl =>
    by_cases h : physicalTime - logicalTime > dl <;>
      simp [Reaction.triggerRun, h]

/-- C4 counterexample: for a timer with offset `0` and start time `0`,
`Timer::startup` enqueues at the start tag `(0, 0)` itself, while
`start_tag.delay(0)` is the microstep successor `(0, 1)` — so the first event
is not at `start_tag.delay(offset)` as claimed. -/
theorem timer_startup_zero_offset_cex :
    Timer.startupTag 0 0 = ⟨0, 0⟩ ∧
    (Tag.fromPhysicalTime 0).delay 0 = ⟨0, 1⟩ ∧
    Timer.startupTag 0 0 ≠ (Tag.fromPhysicalTime 0).delay 0 := by
  refine ⟨rfl, rfl, ?_⟩
  decide

/-- C4 (amended): `Timer::startup` enqueues the first event at
`start_tag.delay(offset)` when the offset is non-zero and at `start_tag`
itself when the offset is zero; `delay(d)` yields `(time_point + d, 0)` for
`d > 0` and `(time_point, microstep + 1)` for `d = 0`; and `Timer::cleanup`
re-enqueues at `now.delay(period)` exactly when the period is non-zero. -/
theorem timer_schedule_spec (startTime : ℤ) (offset period : ℕ) (now : Tag) :
    (offset ≠ 0 →
      Timer.startupTag startTime offset =
        (Tag.fromPhysicalTime startTime).delay offset) ∧
    (offset = 0 →
      Timer.startupTag startTime offset = Tag.fromPhysicalTime startTime) ∧
    (∀ d : ℕ, 0 < d → now.delay d = ⟨now.timePoint + d, 0⟩) ∧
    (now.delay 0 = ⟨now.timePoint, now.microstep + 1⟩) ∧
    (Timer.cleanupTag now period = some (now.delay period) ↔ period ≠ 0) := by
  refine ⟨fun h => ?_, fun h => ?_, fun d hd => ?_, ?_, ?_⟩
  · simp [Timer.startupTag, h]
  · simp [Timer.startupTag, h]
  · simp [Tag.delay, hd]
  · simp [Tag.delay]
  · by_cases h : period = 0 <;> simp [Timer.cleanupTag, h]

/-- Witness for `timer_schedule_spec` at offset `5`, period `7`,
start time `3`, current tag `(3, 0)`. -/
theorem timer_schedule_spec_witness :
    Timer.startupTag 3 5 = (Tag.fromPhysicalTime 3).delay 5 ∧
    Timer.startupTag 3 0 = Tag.fromPhysicalTime 3 ∧
    Tag.delay ⟨3, 0⟩ 7 = ⟨10, 0⟩ ∧
    Timer.cleanupTag ⟨3, 0⟩ 7 = some (Tag.delay ⟨3, 0⟩ 7) :=
  ⟨(timer_schedule_spec 3 5 7 ⟨3, 0⟩).1 (by decide),
   (timer_schedule_spec 3 0 7 ⟨3, 0⟩).2.1 rfl,
   by simpa using (timer_schedule_spec 3 5 7 ⟨3, 0⟩).2.2.1 7 (by decide),
   (timer_schedule_spec 3 5 7 ⟨3, 0⟩).2.2.2.2.mpr (by decide)⟩

/-- C8: with runtime validation compiled out (`kDoRuntimeValidation = false`),
`reactor::validate` never throws, and every guarded topology-mutating
operation, as well as `sync_shutdown`/`async_shutdown`, proceeds regardless of
phase or argument validity. -/
theorem validation_disabled_never_throws
    (c : Bool) (m : String) (t : Topology) (op : TopOp) (s : EnvState) :
    validate false c m = .ok () ∧
    (applyOp false t op s).1 = .ok () ∧
    (syncShutdown false s).1 = .ok () ∧
    (asyncShutdown false s).1 = .ok () := by
  refine ⟨rfl, ?_, rfl, rfl⟩
  cases op <;>
    simp [applyOp, validate, baseActionRegisterTrigger,
      baseActionRegisterScheduler] <;>
    split <;> simp

/-- C3: with runtime validation enabled, every topology-mutating operation
called in any phase other than its allowed phase fails with a
`ValidationError` and leaves the topology unchanged. -/
theorem phase_gating (t : Topology) (op : TopOp) (s : EnvState)
    (h : s.phase ≠ allowedPhase op) :
    (∃ e, (applyOp true t op s).1 = .error e) ∧ (applyOp true t op s).2 = s := by
  have hb : ∀ ph : Phase, s.phase ≠ ph → (s.phase == ph) = false := by
    intro ph hne
    exact beq_eq_false_iff_ne.mpr hne
  cases op <;> simp only [allowedPhase] at h
  case actionRegisterScheduler ac rc =>
    cases hl : t.actionIsLogical ac <;>
      simp [applyOp, validate, baseActionRegisterScheduler, hl, hb _ h]
  all_goals simp [applyOp, validate, baseActionRegisterTrigger, hb _ h]

/-- Witness for `phase_gating`: registering a reactor while in the
assembly phase fails and leaves the state untouched. -/
theorem phase_gating_witness :
    (∃ e, (applyOp true fixTopology (.registerReactor 5) (fixState .Assembly)).1
        = .error e) ∧
    (applyOp true fixTopology (.registerReactor 5) (fixState .Assembly)).2
        = fixState .Assembly :=
  phase_gating fixTopology (.registerReactor 5) (fixState .Assembly) (by decide)

/-- C9: calling `async_shutdown` outside the `Execution` phase (with runtime
validation enabled) makes the inner `sync_shutdown` throw after the
scheduler's queue lock was taken and before the `unlock()` call, so the
`ValidationError` propagates with the lock still held and the phase
unchanged. -/
theorem async_shutdown_wrong_phase (s : EnvState)
    (h : s.phase ≠ Phase.Execution) :
    (∃ e, (asyncShutdown true s).1 = .error e) ∧
    (asyncShutdown true s).2.lockHeld = true ∧
    (asyncShutdown true s).2.phase = s.phase ∧
    (asyncShutdown true s).2.schedulerStopped = s.schedulerStopped := by
  have hb : (s.phase == Phase.Execution) = false := beq_eq_false_iff_ne.mpr h
  simp [asyncShutdown, syncShutdown, validate, hb]

/-- Witness for `async_shutdown_wrong_phase` in the construction phase. -/
theorem async_shutdown_wrong_phase_witness :
    (∃ e, (asyncShutdown true (fixState .Construction)).1 = .error e) ∧
    (asyncShutdown true (fixState .Construction)).2.lockHeld = true ∧
    (asyncShutdown true (fixState .Construction)).2.phase
        = (fixState .Construction).phase ∧
    (asyncShutdown true (fixState .Construction)).2.schedulerStopped
        = (fixState .Construction).schedulerStopped :=
  async_shutdown_wrong_phase (fixState .Construction) (by decide)

/-- Updating two pointwise-ordered set families at the same key with the same
inserted element preserves the pointwise order. -/
lemma update_insert_subset {f g : ℕ → Finset ℕ} (hsub : ∀ r, f r ⊆ g r)
    (rc p r : ℕ) :
    Function.update f rc (insert p (f rc)) r ⊆
      Function.update g rc (insert p (g rc)) r := by
  by_cases hr : r = rc
  · subst hr
    simp only [Function.update_same]
    exact Finset.insert_subset_insert _ (hsub r)
  · simp only [Function.update_noteq hr]
    exact hsub r

/-- Inserting into one member of the larger set family keeps the pointwise
order. -/
lemma subset_update_insert {f g : ℕ → Finset ℕ} (hsub : ∀ r, f r ⊆ g r)
    (rc p r : ℕ) :
    f r ⊆ Function.update g rc (insert p (g rc)) r := by
  by_cases hr : r = rc
  · subst hr
    simp only [Function.update_same]
    exact (hsub r).trans (Finset.subset_insert _ _)
  · simp only [Function.update_noteq hr]
    exact hsub r

/-- C10: a successful `Reaction::declare_trigger(port)` inserts the port into
both the reaction's port-trigger set and its dependency set, registering the
dependency on the port with `is_trigger` true; and the invariant that every
reaction's port-trigger set is a subset of its dependency set is preserved by
every declaration operation. -/
theorem declare_trigger_port_subset (t : Topology) :
    (∀ rc p s s',
      applyOp true t (.declareTriggerPort rc p) s = (.ok (), s') →
        p ∈ s'.portTriggersOf rc ∧ p ∈ s'.dependenciesOf rc ∧
        (rc, true) ∈ s'.portDeps p) ∧
    (∀ op s, (∀ r, s.portTriggersOf r ⊆ s.dependenciesOf r) →
      ∀ r, ((applyOp true t op s).2).portTriggersOf r ⊆
           ((applyOp true t op s).2).dependenciesOf r) := by
  constructor
  · intro rc p s s' hok
    simp only [applyOp] at hok
    split at hok
    · simp at hok
    · split at hok
      · simp at hok
      · have h2 := congrArg Prod.snd hok
        simp only at h2
        subst h2
        refine ⟨?_, ?_, ?_⟩ <;>
          simp [portRegisterDependency, Function.update]
  · intro op s hsub r
    cases op <;>
      simp only [applyOp, baseActionRegisterTrigger, baseActionRegisterScheduler,
        portRegisterDependency, portRegisterAntidependency] <;>
      repeat' split
    all_goals
      first
      | exact hsub r
      | exact update_insert_subset hsub _ _ r
      | exact subset_update_insert hsub _ _ r

/-- Witness for `declare_trigger_port_subset`: a successful
`declare_trigger` of port `2` on reaction `1` in the assembly phase records
the port in both sets, and the subset invariant holds afterwards. -/
theorem declare_trigger_port_subset_witness :
    (2 ∈ (applyOp true fixTopology (.declareTriggerPort 1 2)
        (fixState .Assembly)).2.portTriggersOf 1 ∧
     2 ∈ (applyOp true fixTopology (.declareTriggerPort 1 2)
        (fixState .Assembly)).2.dependenciesOf 1 ∧
     (1, true) ∈ (applyOp true fixTopology (.declareTriggerPort 1 2)
        (fixState .Assembly)).2.portDeps 2) ∧
    (∀ r, ((applyOp true fixTopology (.declareTriggerPort 1 2)
        (fixState .Assembly)).2).portTriggersOf r ⊆
      ((applyOp true fixTopology (.declareTriggerPort 1 2)
        (fixState .Assembly)).2).dependenciesOf r) :=
  ⟨(declare_trigger_port_subset fixTopology).1 1 2 (fixState .Assembly) _ rfl,
   (declare_trigger_port_subset fixTopology).2 (.declareTriggerPort 1 2)
     (fixState .Assembly) (fun _ => Finset.empty_subset _)⟩

/-- C6: with every dependency endpoint among the registered reactions (as
`Environment::startup` arranges), `calculate_indexes` fails — exporting the
dependency graph to `/tmp/reactor_dependency_graph.dot` and throwing a
`ValidationError` — exactly when the dependency graph has a cycle; on every
acyclic graph it completes without error. -/
theorem calculate_indexes_error_iff_cycle (reactions : Finset ℕ)
    (deps : List (ℕ × ℕ))
    (hend : ∀ d ∈ deps, d.1 ∈ reactions ∧ d.2 ∈ reactions) :
    ((∃ err, calculateIndexes reactions deps = .error err ∧
        err.dotPath = "/tmp/reactor_dependency_graph.dot" ∧
        err.dotEdges = deps) ↔ hasCycle deps) := by
  have hkeys := graphKeys_eq reactions deps hend
  constructor
  · rintro ⟨err, herr, -, -⟩
    by_contra hnc
    obtain ⟨res, hres⟩ := kahnAux_acyclic_ok (cycleErrorOf deps)
      (graphKeys reactions deps).card (graphKeys reactions deps)
      (depSucc deps) 0 (fun _ => none) (le_refl _)
      (fun r _ => by rw [hkeys]; exact depSucc_subset reactions deps hend r)
      (fun hcyc => hnc ((hasCycle_iff_succ deps).mpr hcyc))
    obtain ⟨asg, ix⟩ := res
    rw [calculateIndexes_eq, hres] at herr
    exact absurd herr (by simp)
  · intro hcyc
    obtain ⟨r, hr⟩ := (hasCycle_iff_succ deps).mp hcyc
    obtain ⟨S, hSne, hSstep⟩ := cycle_set _ hr
    have hSsub : S ⊆ graphKeys reactions deps := by
      intro x hx
      obtain ⟨z, _, hz⟩ := hSstep x hx
      rw [hkeys]
      exact (hend _ (mem_depSucc.mp hz)).1
    have herr := kahnAux_cycle_error (cycleErrorOf deps)
      (graphKeys reactions deps).card (graphKeys reactions deps)
      (depSucc deps) 0 (fun _ => none) S hSne hSsub hSstep
    refine ⟨cycleErrorOf deps, ?_, rfl, rfl⟩
    rw [calculateIndexes_eq, herr]

/-- Witness for `calculate_indexes_error_iff_cycle`: the two-reaction cycle
`1 → 2 → 1` makes `calculate_indexes` fail with the DOT export to
`/tmp/reactor_dependency_graph.dot`. -/
theorem calculate_indexes_cycle_witness :
    ∃ err, calculateIndexes {1, 2} [(1, 2), (2, 1)] = .error err ∧
      err.dotPath = "/tmp/reactor_dependency_graph.dot" ∧
      err.dotEdges = [(1, 2), (2, 1)] :=
  (calculate_indexes_error_iff_cycle {1, 2} [(1, 2), (2, 1)]
      (by decide)).mpr
    (by
      have h1 : Relation.TransGen
          (fun a b => (a, b) ∈ [((1 : ℕ), (2 : ℕ)), (2, 1)]) 2 1 :=
        Relation.TransGen.single (by decide)
      exact ⟨1, Relation.TransGen.head (by decide) h1⟩)

/-- C7 counterexample: with no reactions at all, the loop body never runs,
`index` stays `0`, and the `unsigned` computation `_max_reaction_index =
index - 1` underflows to `2^32 - 1 = 4294967295`, which is not the largest
level assigned to any reaction (no level was assigned; their supremum is
`0`). -/
theorem max_reaction_index_empty_cex :
    calculateIndexes ∅ [] = .ok (fun _ => none, 4294967295) ∧
    Finset.sup (∅ : Finset ℕ)
      (fun r => ((fun _ => (none : Option ℕ)) r).getD 0) = 0 ∧
    (4294967295 : ℕ) ≠ 0 := by
  refine ⟨rfl, rfl, by decide⟩

/-- C7 (amended): for every nonempty set of reactions (fewer than `2^32`,
so the `unsigned` round counter cannot wrap) whose dependency edges stay
within the set and form no cycle, `calculate_indexes` succeeds, assigns every
reaction a level, and sets `_max_reaction_index` to the largest assigned
level; for the empty set the `unsigned` expression `index - 1` underflows to
`2^32 - 1` instead. -/
theorem max_reaction_index_is_max_level (reactions : Finset ℕ)
    (deps : List (ℕ × ℕ))
    (hend : ∀ d ∈ deps, d.1 ∈ reactions ∧ d.2 ∈ reactions)
    (hacyc : ¬ hasCycle deps)
    (hne : reactions.Nonempty)
    (hcard : reactions.card < U32) :
    ∃ assign m, calculateIndexes reactions deps = .ok (assign, m) ∧
      (∀ r ∈ reactions, (assign r).isSome) ∧
      m = reactions.sup (fun r => (assign r).getD 0) := by
  have hkeys := graphKeys_eq reactions deps hend
  obtain ⟨⟨asg, ix⟩, hres⟩ := kahnAux_acyclic_ok (cycleErrorOf deps)
    (graphKeys reactions deps).card (graphKeys reactions deps)
    (depSucc deps) 0 (fun _ => none) (le_refl _)
    (fun r _ => by rw [hkeys]; exact depSucc_subset reactions deps hend r)
    (fun hcyc => hacyc ((hasCycle_iff_succ deps).mpr hcyc))
  have hlt : 0 + (graphKeys reactions deps).card < U32 := by
    rw [hkeys]; omega
  obtain ⟨inv1, inv2, inv3, inv4, inv5⟩ :=
    kahnAux_ok_spec (cycleErrorOf deps) (graphKeys reactions deps).card
      (graphKeys reactions deps) (depSucc deps) 0 (fun _ => none) asg ix
      hres hlt
  rw [hkeys] at inv3 inv4 inv5
  obtain ⟨rmax, hrmax, hamax⟩ := inv5 hne
  have hix1 : 1 ≤ ix := by
    obtain ⟨i, -, hi2, -⟩ := inv4 rmax hrmax
    omega
  have hixlt : ix ≤ reactions.card := by omega
  refine ⟨asg, (ix + (U32 - 1)) % U32, ?_, ?_, ?_⟩
  · rw [calculateIndexes_eq, hres]
  · intro r hr
    obtain ⟨i, -, -, hi3⟩ := inv4 r hr
    rw [hi3]; rfl
  · have hmod : (ix + (U32 - 1)) % U32 = ix - 1 := by
      have h1 : ix + (U32 - 1) = (ix - 1) + U32 := by omega
      rw [h1, Nat.add_mod_right]
      exact Nat.mod_eq_of_lt (by omega)
    rw [hmod]
    apply le_antisymm
    · exact Finset.le_sup_of_le hrmax (by rw [hamax]; rfl)
    · apply Finset.sup_le
      intro r hr
      obtain ⟨i, -, hi2, hi3⟩ := inv4 r hr
      rw [hi3]
      simp only [Option.getD_some]
      omega

/-- Witness for `max_reaction_index_is_max_level`: reactions `{1, 2}` with
the single priority edge `2 → 1` are assigned levels with maximum recorded
in the returned `_max_reaction_index`. -/
theorem max_reaction_index_witness :
    ∃ assign m, calculateIndexes {1, 2} [(2, 1)] = .ok (assign, m) ∧
      (∀ r ∈ ({1, 2} : Finset ℕ), (assign r).isSome) ∧
      m = Finset.sup {1, 2} (fun r => (assign r).getD 0) :=
  max_reaction_index_is_max_level {1, 2} [(2, 1)] (by decide)
    (by
      rintro ⟨r, hr⟩
      have key : ∀ x y : ℕ,
          Relation.TransGen (fun a b => (a, b) ∈ [((2 : ℕ), (1 : ℕ))]) x y →
            x = 2 ∧ y = 1 := by
        intro x y hxy
        induction hxy with
        | single h1 => simpa using h1
        | tail h1 h2 ih =>
          rename_i b c
          have hbc : (b, c) = (2, 1) := by simpa using h2
          have hc : c = 1 := congrArg Prod.snd hbc
          exact ⟨ih.1, hc⟩
      have := key r r hr
      omega)
    ⟨1, by decide⟩ (by decide)

/-- C1 counterexample: for the reactor with reactions `1` (priority 1) and
`2` (priority 2), the priority edge `(2, 1)` is recorded and
`calculate_indexes` assigns reaction `1` index `0` and reaction `2` index
`1` — reaction `2` gets the strictly *larger* index, not the smaller one the
claim states, so reaction `1` fires first. -/
theorem priority_order_cex :
    buildPriorityMap [(1, 1), (2, 2)] = .ok [(1, 1), (2, 2)] ∧
    priorityEdges [(1, 1), (2, 2)] = [(2, 1)] ∧
    ∃ assign, calculateIndexes {1, 2} [(2, 1)] = .ok (assign, 1) ∧
      assign 1 = some 0 ∧ assign 2 = some 1 ∧ ¬ (1 : ℕ) < 0 := by
  exact ⟨rfl, rfl, ⟨_, rfl, rfl, rfl, by omega⟩⟩

/-- C1 (amended): for a reactor containing exactly reactions `r1` with
priority 1 and `r2` with priority 2, the priority map sorts them ascending,
the edge `reaction(p2) → reaction(p1)` (that is, `(r2, r1)`) is recorded, and
`calculate_indexes` assigns `r1` index `0` and `r2` the strictly larger index
`1`: since lower indexes run first within a tag, an edge `X → Y` means `Y`
must complete before `X`, and `r1` fires before `r2`. -/
theorem priority_order_amended (r1 r2 : ℕ) (h : r1 ≠ r2) :
    buildPriorityMap [(r1, 1), (r2, 2)] = .ok [(1, r1), (2, r2)] ∧
    priorityEdges [(1, r1), (2, r2)] = [(r2, r1)] ∧
    ∃ assign, calculateIndexes {r1, r2} [(r2, r1)] = .ok (assign, 1) ∧
      assign r1 = some 0 ∧ assign r2 = some 1 := by
  have h21 : r2 ≠ r1 := Ne.symm h
  have hs1 : depSucc [(r2, r1)] r1 = ∅ := by
    simp [depSucc, h21]
  have hs2 : depSucc [(r2, r1)] r2 = {r1} := by
    simp [depSucc]
  have hk : graphKeys {r1, r2} [(r2, r1)] = {r1, r2} := by
    rw [graphKeys]
    refine Finset.union_eq_left.mpr ?_
    intro x hx
    simp only [List.map_cons, List.map_nil, List.toFinset_cons,
      List.toFinset_nil, insert_emptyc_eq, Finset.mem_singleton] at hx
    simp [hx]
  have hcard : ({r1, r2} : Finset ℕ).card = 2 := by
    rw [Finset.card_insert_of_not_mem (by simp [h]), Finset.card_singleton]
  have hdz1 : ({r1, r2} : Finset ℕ).filter
      (fun r => depSucc [(r2, r1)] r = ∅) = {r1} := by
    rw [Finset.filter_insert, if_pos hs1, Finset.filter_singleton,
      if_neg (by rw [hs2]; exact Finset.singleton_ne_empty r1)]
    simp
  have hsd1 : ({r1, r2} : Finset ℕ) \ {r1} = {r2} := by
    ext x
    simp only [Finset.mem_sdiff, Finset.mem_insert, Finset.mem_singleton]
    constructor
    · rintro ⟨h1 | h2, hne⟩
      · exact absurd h1 hne
      · exact h2
    · rintro rfl
      exact ⟨Or.inr rfl, h21⟩
  have hdz2 : ({r2} : Finset ℕ).filter
      (fun r => depSucc [(r2, r1)] r \ ({r1} : Finset ℕ) = ∅) = {r2} := by
    rw [Finset.filter_singleton,
      if_pos (by rw [hs2]; exact Finset.sdiff_self _)]
  have hU1 : (0 + 1) % U32 = 1 := by norm_num [U32]
  have hU2 : (1 + 1) % U32 = 2 := by norm_num [U32]
  have hrun : kahnAux (cycleErrorOf [(r2, r1)]) 2 {r1, r2}
      (depSucc [(r2, r1)]) 0 (fun _ => none) =
      .ok (fun r => if r ∈ ({r2} : Finset ℕ) then some 1
        else if r ∈ ({r1} : Finset ℕ) then some 0 else none, 2) := by
    rw [show (2 : ℕ) = 1 + 1 from rfl, kahnAux_step,
      if_neg (Finset.insert_ne_empty _ _), hdz1,
      if_neg (Finset.singleton_ne_empty r1), hsd1, hU1]
    nth_rewrite 1 [show (1 : ℕ) = 0 + 1 from rfl]
    rw [kahnAux_step, if_neg (Finset.singleton_ne_empty r2), hdz2,
      if_neg (Finset.singleton_ne_empty r2), Finset.sdiff_self, hU2,
      kahnAux_zero, if_pos rfl]
  refine ⟨rfl, rfl,
    ⟨fun r => if r ∈ ({r2} : Finset ℕ) then some 1
      else if r ∈ ({r1} : Finset ℕ) then some 0 else none, ?_, ?_, ?_⟩⟩
  · rw [calculateIndexes_eq, hk, hcard, hrun]
    norm_num [U32]
  · simp [h, h21]
  · simp

/-- Witness for `priority_order_amended` with reaction ids `3` and `4`. -/
theorem priority_order_amended_witness :
    buildPriorityMap [(3, 1), (4, 2)] = .ok [(1, 3), (2, 4)] ∧
    priorityEdges [(1, 3), (2, 4)] = [(4, 3)] ∧
    ∃ assign, calculateIndexes {3, 4} [(4, 3)] = .ok (assign, 1) ∧
      assign 3 = some 0 ∧ assign 4 = some 1 :=
  priority_order_amended 3 4 (by decide)

/-- C2: during dependency-graph construction, the pairs appended to the
dependency edge list are exactly the pairs `(R, A)` — from the depending
reaction to the antidependency reaction — for reactions `R`, dependency ports
`P` of `R`, and reactions `A` in the antidependency set of the source port
reached by following `P`'s inward-binding chain (assuming the chase
terminates within the given fuel, as the source's unbounded `while` loop
presumes). -/
theorem build_dependency_edges_spec (rs : List ℕ) (depsOf : ℕ → List ℕ)
    (inward : ℕ → Option ℕ) (antideps : ℕ → List ℕ) (fuel : ℕ)
    (hterm : ∀ r ∈ rs, ∀ p ∈ depsOf r,
      inward (sourcePort inward fuel p) = none)
    (r a : ℕ) :
    (r, a) ∈ buildDependencyEdges rs depsOf inward antideps fuel ↔
      (r ∈ rs ∧ ∃ p ∈ depsOf r, ∃ s, chainReaches inward p s ∧
        a ∈ antideps s) := by
  simp only [buildDependencyEdges, List.mem_flatMap, List.mem_map]
  constructor
  · rintro ⟨r', hr', p, hp, ad, had, heq⟩
    have hr2 : r' = r := congrArg Prod.fst heq
    have ha2 : ad = a := congrArg Prod.snd heq
    subst hr2; subst ha2
    exact ⟨hr', p, hp, sourcePort inward fuel p,
      sourcePort_chainReaches inward fuel p (hterm r' hr' p hp), had⟩
  · rintro ⟨hr, p, hp, s, hchain, ha⟩
    have hs : s = sourcePort inward fuel p :=
      chainReaches_unique inward hchain
        (sourcePort_chainReaches inward fuel p (hterm r hr p hp))
    subst hs
    exact ⟨r, hr, p, hp, a, ha, rfl⟩

/-- Witness for `build_dependency_edges_spec`: reaction `1` depends on port
`10`, which binds inward to the source port `11`, written by reaction `2`;
the loop appends exactly the edge `(1, 2)`. -/
theorem build_dependency_edges_witness :
    ((1, 2) ∈ buildDependencyEdges [1] fixDepsOf fixInward fixAntideps 2 ↔
      (1 ∈ [1] ∧ ∃ p ∈ fixDepsOf 1, ∃ s, chainReaches fixInward p s ∧
        2 ∈ fixAntideps s)) ∧
    (1, 2) ∈ buildDependencyEdges [1] fixDepsOf fixInward fixAntideps 2 :=
  ⟨build_dependency_edges_spec [1] fixDepsOf fixInward fixAntideps 2
      (by decide) 1 2,
   by decide⟩

end ReactorCpp
